import Mathlib

/-!
Shallow embedding of the task-collection service of the repository
(Express API, `packages/api.com/src/index.ts`): the `Task` data model,
input validation (`validateTaskInput`), the POST/PUT/DELETE/GET handlers
(`createTask`, `updateTask`, `deleteTask`, `listTasks`, `findTaskById`)
and the statistics aggregation (`calculateStats`).

Strings are Lean `String`s; JavaScript `trim` is modelled by `jsTrim`
(drop leading and trailing whitespace characters); JavaScript
`String.prototype.includes` is modelled by `strIncludes`; ISO-8601
timestamps are modelled by `Nat` instants (their lexicographic order
coincides with chronological order); `randomUUID()` and `new Date()` are
modelled by explicit `newId` / `now` parameters of the operations.
-/

namespace TaskApi

/-- The `Task` entity (`shared-types`): id, title, optional description,
completed flag, category, priority and the two timestamps.  Category and
priority are stored as raw strings, as in the JavaScript runtime; the
enumerations are enforced by validation. -/
structure Task where
  id : String
  title : String
  description : Option String
  completed : Bool
  category : String
  priority : String
  createdAt : Nat
  updatedAt : Nat
deriving DecidableEq, Repr

/-- A request body for POST/PUT `/api/tasks`: every field optional. -/
structure TaskInput where
  title : Option String
  description : Option String
  completed : Option Bool
  category : Option String
  priority : Option String
deriving DecidableEq, Repr

/-- The `ApiError` class: HTTP status code, machine readable code, message. -/
structure ApiError where
  statusCode : Nat
  code : String
  message : String
deriving DecidableEq, Repr

/-- The `TaskStats` aggregate; the two three-key records
`byCategory` / `byPriority` are flattened into one field per key. -/
structure TaskStats where
  total : Nat
  completed : Nat
  active : Nat
  byCategoryWork : Nat
  byCategoryPersonal : Nat
  byCategoryOther : Nat
  byPriorityLow : Nat
  byPriorityMedium : Nat
  byPriorityHigh : Nat
deriving DecidableEq, Repr

/-- The filter configuration of GET `/api/tasks`
(query parameters `completed`, `category`, `priority`, `search`). -/
structure Filters where
  completed : Option Bool
  category : Option String
  priority : Option String
  search : Option String
deriving DecidableEq, Repr

/-! ### JavaScript string primitives -/

/-- Drop the leading whitespace characters of a character list. -/
def dropLeadWS : List Char → List Char
  | [] => []
  | c :: cs => if c.isWhitespace then dropLeadWS cs else c :: cs

/-- Drop leading and trailing whitespace of a character list. -/
def trimChars (cs : List Char) : List Char :=
  (dropLeadWS (dropLeadWS cs).reverse).reverse

/-- JavaScript `String.prototype.trim`: remove leading and trailing
whitespace. -/
def jsTrim (s : String) : String :=
  String.mk (trimChars s.data)

/-- `leadMatch needle hay`: `needle` is an initial segment of `hay`. -/
def leadMatch : List Char → List Char → Bool
  | [], _ => true
  | _ :: _, [] => false
  | n :: ns, h :: hs => n == h && leadMatch ns hs

/-- `subAt needle hay`: `needle` occurs contiguously somewhere in `hay`. -/
def subAt : List Char → List Char → Bool
  | needle, [] => leadMatch needle []
  | needle, h :: hs => leadMatch needle (h :: hs) || subAt needle hs

/-- JavaScript `hay.includes(needle)`. -/
def strIncludes (hay needle : String) : Bool :=
  subAt needle.data hay.data

/-- `Substr needle hay`: `needle` is a contiguous substring of `hay`
(the mathematical reading of `includes`). -/
def Substr (needle hay : String) : Prop :=
  ∃ pre suf, pre ++ needle.data ++ suf = hay.data

/-- JavaScript truthiness test for an optional string
(`undefined` and the empty string are falsy). -/
def jsFalsyStr : Option String → Bool
  | none => true
  | some s => s == ""

/-- JavaScript `a || b` for an optional string `a` and a string default
`b` (used for the category and priority defaults of the POST handler). -/
def jsOr (a : Option String) (b : String) : String :=
  match a with
  | none => b
  | some s => if s == "" then b else s

/-! ### Validation (`validateTaskInput`) -/

/-- The valid categories. -/
def validCategories : List String := ["work", "personal", "other"]

/-- The valid priorities. -/
def validPriorities : List String := ["low", "medium", "high"]

/-- The title section of `validateTaskInput`: required on create
(JS-falsy titles rejected), and whenever present its trimmed form must be
nonempty and at most 200 characters. -/
def titleCheck (title : Option String) (isUpdate : Bool) : Except ApiError Unit :=
  if !isUpdate && jsFalsyStr title then
    .error ⟨400, "VALIDATION_ERROR", "Title is required"⟩
  else
    match title with
    | some t =>
      let trimmedTitle := jsTrim t
      if trimmedTitle.length = 0 then
        .error ⟨400, "VALIDATION_ERROR", "Title cannot be empty"⟩
      else if trimmedTitle.length > 200 then
        .error ⟨400, "VALIDATION_ERROR", "Title must not exceed 200 characters"⟩
      else .ok ()
    | none => .ok ()

/-- The description section of `validateTaskInput`: when present, the raw
(untrimmed) value must be at most 1000 characters. -/
def descCheck (description : Option String) : Except ApiError Unit :=
  match description with
  | some d =>
    if d.length > 1000 then
      .error ⟨400, "VALIDATION_ERROR", "Description must not exceed 1000 characters"⟩
    else .ok ()
  | none => .ok ()

/-- The category section of `validateTaskInput`. -/
def catCheck (category : Option String) : Except ApiError Unit :=
  match category with
  | some c =>
    if c ∈ validCategories then .ok ()
    else .error ⟨400, "VALIDATION_ERROR", "Category must be work, personal, or other"⟩
  | none => .ok ()

/-- The priority section of `validateTaskInput`. -/
def prioCheck (priority : Option String) : Except ApiError Unit :=
  match priority with
  | some p =>
    if p ∈ validPriorities then .ok ()
    else .error ⟨400, "VALIDATION_ERROR", "Priority must be low, medium, or high"⟩
  | none => .ok ()

/-- `validateTaskInput(data, isUpdate)`: the four sections run in source
order; the first failure aborts. -/
def validateTaskInput (data : TaskInput) (isUpdate : Bool) : Except ApiError Unit :=
  match titleCheck data.title isUpdate with
  | .error e => .error e
  | .ok _ =>
    match descCheck data.description with
    | .error e => .error e
    | .ok _ =>
      match catCheck data.category with
      | .error e => .error e
      | .ok _ => prioCheck data.priority

/-! ### Store operations -/

/-- `findTaskById`: first task whose id matches, else a 404 `ApiError`. -/
def findTaskById (store : List Task) (id : String) : Except ApiError Task :=
  match store.find? (fun t => t.id == id) with
  | some task => .ok task
  | none => .error ⟨404, "TASK_NOT_FOUND", "Task with id " ++ id ++ " not found"⟩

/-- The POST `/api/tasks` handler: validate, then build and append the new
task.  `newId` stands for `randomUUID()` and `now` for `new Date()`. -/
def createTask (store : List Task) (body : TaskInput) (newId : String) (now : Nat) :
    Except ApiError (Task × List Task) :=
  match validateTaskInput body false with
  | .error e => .error e
  | .ok _ =>
    let task : Task :=
      ⟨newId, jsTrim (body.title.getD ""), body.description.map jsTrim, false,
        jsOr body.category "personal", jsOr body.priority "medium", now, now⟩
    .ok (task, store ++ [task])

/-- `task.title = req.body.title.trim()` when a title is supplied. -/
def setTitle (body : TaskInput) (t : Task) : Task :=
  match body.title with
  | some s => { t with title := jsTrim s }
  | none => t

/-- `task.description = req.body.description.trim()` when supplied. -/
def setDescription (body : TaskInput) (t : Task) : Task :=
  match body.description with
  | some s => { t with description := some (jsTrim s) }
  | none => t

/-- `task.completed = req.body.completed` when supplied. -/
def setCompleted (body : TaskInput) (t : Task) : Task :=
  match body.completed with
  | some b => { t with completed := b }
  | none => t

/-- `task.category = req.body.category` when supplied. -/
def setCategory (body : TaskInput) (t : Task) : Task :=
  match body.category with
  | some c => { t with category := c }
  | none => t

/-- `task.priority = req.body.priority` when supplied. -/
def setPriority (body : TaskInput) (t : Task) : Task :=
  match body.priority with
  | some p => { t with priority := p }
  | none => t

/-- The field-update block of the PUT handler, followed by the
unconditional `task.updatedAt = new Date().toISOString()`. -/
def applyUpdate (body : TaskInput) (now : Nat) (t : Task) : Task :=
  { setPriority body (setCategory body (setCompleted body (setDescription body (setTitle body t)))) with
    updatedAt := now }

/-- Replace the first task with the given id (the PUT handler mutates the
object found in the array in place). -/
def replaceFirst (store : List Task) (id : String) (u : Task) : List Task :=
  match store with
  | [] => []
  | t :: ts => if t.id == id then u :: ts else t :: replaceFirst ts id u

/-- The PUT `/api/tasks/:id` handler: find the task (404 when absent),
validate the sparse body, apply the supplied fields, refresh `updatedAt`. -/
def updateTask (store : List Task) (id : String) (body : TaskInput) (now : Nat) :
    Except ApiError (Task × List Task) :=
  match findTaskById store id with
  | .error e => .error e
  | .ok task =>
    match validateTaskInput body true with
    | .error e => .error e
    | .ok _ =>
      let updated := applyUpdate body now task
      .ok (updated, replaceFirst store id updated)

/-- `tasks.findIndex((t) => t.id === id)` of the DELETE handler,
with `none` for `-1`. -/
def findIndexById : List Task → String → Option Nat
  | [], _ => none
  | t :: ts, id => if t.id == id then some 0 else (findIndexById ts id).map (· + 1)

/-- The DELETE `/api/tasks/:id` handler: 404 when the id is absent, else
`tasks.splice(taskIndex, 1)`. -/
def deleteTask (store : List Task) (id : String) : Except ApiError (List Task) :=
  match findIndexById store id with
  | none => .error ⟨404, "TASK_NOT_FOUND", "Task with id " ++ id ++ " not found"⟩
  | some i => .ok (store.eraseIdx i)

/-- The search predicate of the GET handler: the lowercased term occurs in
the lowercased title, or in the lowercased description when one exists
(`task.description?.toLowerCase().includes(searchTerm)`). -/
def searchMatches (search : String) (t : Task) : Bool :=
  let searchTerm := search.toLower
  strIncludes t.title.toLower searchTerm ||
    (match t.description with
     | some d => strIncludes d.toLower searchTerm
     | none => false)

/-- The GET `/api/tasks` handler: apply the present filters in source
order (completed, category, priority, search). -/
def listTasks (store : List Task) (f : Filters) : List Task :=
  let r1 := match f.completed with
    | some c => store.filter (fun t => t.completed == c)
    | none => store
  let r2 := match f.category with
    | some c => r1.filter (fun t => t.category == c)
    | none => r1
  let r3 := match f.priority with
    | some p => r2.filter (fun t => t.priority == p)
    | none => r2
  match f.search with
  | some s => r3.filter (searchMatches s)
  | none => r3

/-- The conjunction of the present filters, as one predicate. -/
def matchesFilters (f : Filters) (t : Task) : Bool :=
  (match f.completed with | some c => t.completed == c | none => true) &&
  (match f.category with | some c => t.category == c | none => true) &&
  (match f.priority with | some p => t.priority == p | none => true) &&
  (match f.search with | some s => searchMatches s t | none => true)

/-! ### Statistics (`calculateStats`) -/

/-- The body of the `tasks.forEach` loop of `calculateStats`:
`if (task.completed) stats.completed++`, `stats.byCategory[task.category]++`
and `stats.byPriority[task.priority]++` on the three-key records. -/
def bumpStats (stats : TaskStats) (task : Task) : TaskStats :=
  { stats with
    completed := stats.completed + (if task.completed then 1 else 0),
    byCategoryWork := stats.byCategoryWork + (if task.category == "work" then 1 else 0),
    byCategoryPersonal := stats.byCategoryPersonal + (if task.category == "personal" then 1 else 0),
    byCategoryOther := stats.byCategoryOther + (if task.category == "other" then 1 else 0),
    byPriorityLow := stats.byPriorityLow + (if task.priority == "low" then 1 else 0),
    byPriorityMedium := stats.byPriorityMedium + (if task.priority == "medium" then 1 else 0),
    byPriorityHigh := stats.byPriorityHigh + (if task.priority == "high" then 1 else 0) }

/-- `calculateStats`: initialise with `total = tasks.length` and zero
counters, run the loop, then `stats.active = stats.total - stats.completed`. -/
def calculateStats (tasks : List Task) : TaskStats :=
  let stats0 : TaskStats := ⟨tasks.length, 0, 0, 0, 0, 0, 0, 0, 0⟩
  let stats1 := tasks.foldl bumpStats stats0
  { stats1 with active := stats1.total - stats1.completed }

/-- The reference aggregate the specification describes: size, counts of
completed tasks, and counts per category and priority value. -/
def statsSpec (tasks : List Task) : TaskStats :=
  ⟨tasks.length,
   tasks.countP (fun t => t.completed),
   tasks.length - tasks.countP (fun t => t.completed),
   tasks.countP (fun t => t.category == "work"),
   tasks.countP (fun t => t.category == "personal"),
   tasks.countP (fun t => t.category == "other"),
   tasks.countP (fun t => t.priority == "low"),
   tasks.countP (fun t => t.priority == "medium"),
   tasks.countP (fun t => t.priority == "high")⟩

/-! ### Operation sequences and invariants -/

/-- A mutating API call: POST (with the id drawn by `randomUUID` and the
current instant), PUT, or DELETE. -/
inductive Op where
  | create (body : TaskInput) (newId : String) (now : Nat)
  | update (id : String) (body : TaskInput) (now : Nat)
  | del (id : String)
deriving DecidableEq, Repr

/-- The store after one API call (a failed call leaves the store as the
thrown `ApiError` aborts the handler before any mutation). -/
def applyOp (store : List Task) : Op → List Task
  | .create body newId now =>
    match createTask store body newId now with
    | .ok (_, store2) => store2
    | .error _ => store
  | .update id body now =>
    match updateTask store id body now with
    | .ok (_, store2) => store2
    | .error _ => store
  | .del id =>
    match deleteTask store id with
    | .ok store2 => store2
    | .error _ => store

/-- The store after a sequence of API calls. -/
def runOps (store : List Task) : List Op → List Task
  | [] => store
  | op :: ops => runOps (applyOp store op) ops

/-- The stored description, when present, is at most 1000 characters. -/
def descLenOk : Option String → Prop
  | some d => d.length ≤ 1000
  | none => True

instance decDescLenOk : (o : Option String) → Decidable (descLenOk o)
  | some d => inferInstanceAs (Decidable (d.length ≤ 1000))
  | none => inferInstanceAs (Decidable True)

/-- The data-model invariants of one stored task: trimmed title length in
1..200, description (when present) at most 1000 characters, enumerated
category and priority, `updatedAt >= createdAt`. -/
def TaskWF (t : Task) : Prop :=
  1 ≤ (jsTrim t.title).length ∧ (jsTrim t.title).length ≤ 200 ∧
  descLenOk t.description ∧
  t.category ∈ validCategories ∧ t.priority ∈ validPriorities ∧
  t.createdAt ≤ t.updatedAt

instance decTaskWF (t : Task) : Decidable (TaskWF t) :=
  inferInstanceAs (Decidable (_ ∧ _ ∧ _ ∧ _ ∧ _ ∧ _))

/-- The store invariants: pairwise distinct ids, and every task
well-formed. -/
def StoreWF (store : List Task) : Prop :=
  (store.map Task.id).Nodup ∧ ∀ t ∈ store, TaskWF t

instance decStoreWF (store : List Task) : Decidable (StoreWF store) :=
  inferInstanceAs (Decidable (_ ∧ _))

/-- Environment assumptions of one call: `randomUUID` yields an id not in
the collection, and the clock never reads earlier than a stored creation
instant. -/
def OpOk (store : List Task) : Op → Prop
  | .create _ newId _ => ∀ t ∈ store, t.id ≠ newId
  | .update _ _ now => ∀ t ∈ store, t.createdAt ≤ now
  | .del _ => True

instance decOpOk (store : List Task) : (op : Op) → Decidable (OpOk store op)
  | .create _ newId _ => inferInstanceAs (Decidable (∀ t ∈ store, t.id ≠ newId))
  | .update _ _ now => inferInstanceAs (Decidable (∀ t ∈ store, t.createdAt ≤ now))
  | .del _ => inferInstanceAs (Decidable True)

/-- Environment assumptions along a whole sequence of calls. -/
def OpsOk : List Task → List Op → Prop
  | _, [] => True
  | store, op :: ops => OpOk store op ∧ OpsOk (applyOp store op) ops

instance decOpsOk : (store : List Task) → (ops : List Op) → Decidable (OpsOk store ops)
  | _, [] => inferInstanceAs (Decidable True)
  | store, op :: ops =>
    haveI := decOpsOk (applyOp store op) ops
    inferInstanceAs (Decidable (OpOk store op ∧ OpsOk (applyOp store op) ops))

/-- A character list that does not start with whitespace. -/
def noLeadWS : List Char → Prop
  | [] => True
  | c :: _ => c.isWhitespace = false

/-! ### Concrete fixtures used by the witness theorems -/

/-- A create request body exercising every field. -/
def sampleBody : TaskInput :=
  ⟨some " A ", some " d ", some true, some "work", some "high"⟩

/-- The task `createTask` builds from `sampleBody` with id `"id1"` at
instant 5. -/
def sampleTask : Task :=
  ⟨"id1", "A", some "d", false, "work", "high", 5, 5⟩

/-- A body that would fail validation (empty title, invalid category). -/
def badBody : TaskInput :=
  ⟨some "", none, none, some "bogus", none⟩

/-- The all-absent request body. -/
def emptyBody : TaskInput :=
  ⟨none, none, none, none, none⟩

/-- A filter configuration combining three filters. -/
def sampleFilters : Filters :=
  ⟨some false, some "work", none, some "a"⟩

/-- An update body that only toggles `completed`. -/
def wBody : TaskInput :=
  ⟨none, none, some true, none, none⟩

/-- `sampleTask` after `updateTask` with `wBody` at instant 9. -/
def wUpdated : Task :=
  ⟨"id1", "A", some "d", true, "work", "high", 5, 9⟩

/-- A second stored task, distinct from `sampleTask`. -/
def tOther : Task :=
  ⟨"id2", "B", none, false, "personal", "low", 6, 6⟩

/-! ### Lemmas about the string primitives -/

theorem dropLeadWS_length_le (cs : List Char) : (dropLeadWS cs).length ≤ cs.length := by
  induction cs with
  | nil => simp [dropLeadWS]
  | cons c cs ih =>
    simp only [dropLeadWS]
    split
    · exact Nat.le_succ_of_le ih
    · simp

theorem trimChars_length_le (cs : List Char) : (trimChars cs).length ≤ cs.length := by
  unfold trimChars
  calc (dropLeadWS (dropLeadWS cs).reverse).reverse.length
      = (dropLeadWS (dropLeadWS cs).reverse).length := List.length_reverse _
    _ ≤ (dropLeadWS cs).reverse.length := dropLeadWS_length_le _
    _ = (dropLeadWS cs).length := List.length_reverse _
    _ ≤ cs.length := dropLeadWS_length_le cs

theorem jsTrim_length_le (s : String) : (jsTrim s).length ≤ s.length :=
  trimChars_length_le s.data

theorem noLeadWS_dropLeadWS (cs : List Char) : noLeadWS (dropLeadWS cs) := by
  induction cs with
  | nil => trivial
  | cons c cs ih =>
    cases hb : c.isWhitespace with
    | true => simpa [dropLeadWS, hb] using ih
    | false => simp [dropLeadWS, hb, noLeadWS]

theorem dropLeadWS_eq_self (cs : List Char) (h : noLeadWS cs) : dropLeadWS cs = cs := by
  cases cs with
  | nil => rfl
  | cons c cs =>
    simp only [noLeadWS] at h
    simp [dropLeadWS, h]

theorem dropLeadWS_suffix (cs : List Char) : ∃ pre, pre ++ dropLeadWS cs = cs := by
  induction cs with
  | nil => exact ⟨[], rfl⟩
  | cons c cs ih =>
    cases hb : c.isWhitespace with
    | true =>
      obtain ⟨pre, hp⟩ := ih
      exact ⟨c :: pre, by simp [dropLeadWS, hb, hp]⟩
    | false => exact ⟨[], by simp [dropLeadWS, hb]⟩

theorem noLeadWS_of_append (r l2 : List Char) (h : noLeadWS (r ++ l2)) : noLeadWS r := by
  cases r with
  | nil => trivial
  | cons c cs => exact h

theorem trimChars_idem (cs : List Char) : trimChars (trimChars cs) = trimChars cs := by
  have hA : noLeadWS (trimChars cs).reverse := by
    unfold trimChars
    rw [List.reverse_reverse]
    exact noLeadWS_dropLeadWS _
  have hB : noLeadWS (trimChars cs) := by
    obtain ⟨pre, hp⟩ := dropLeadWS_suffix (dropLeadWS cs).reverse
    have h3 := congrArg List.reverse hp
    simp only [List.reverse_append, List.reverse_reverse] at h3
    have h2 : trimChars cs ++ pre.reverse = dropLeadWS cs := by
      simpa [trimChars] using h3
    have h4 := noLeadWS_dropLeadWS cs
    rw [← h2] at h4
    exact noLeadWS_of_append _ _ h4
  show (dropLeadWS (dropLeadWS (trimChars cs)).reverse).reverse = trimChars cs
  rw [dropLeadWS_eq_self _ hB, dropLeadWS_eq_self _ hA, List.reverse_reverse]

theorem jsTrim_idem (s : String) : jsTrim (jsTrim s) = jsTrim s := by
  show String.mk (trimChars (trimChars s.data)) = String.mk (trimChars s.data)
  rw [trimChars_idem]

theorem leadMatch_iff (n : List Char) : ∀ h : List Char,
    (leadMatch n h = true ↔ ∃ suf, n ++ suf = h) := by
  induction n with
  | nil => intro h; simp [leadMatch]
  | cons c cs ih =>
    intro h
    cases h with
    | nil => simp [leadMatch]
    | cons d ds =>
      simp only [leadMatch, Bool.and_eq_true, beq_iff_eq, ih, List.cons_append,
        List.cons.injEq, exists_and_left]

theorem subAt_iff (n h : List Char) :
    subAt n h = true ↔ ∃ pre suf, pre ++ n ++ suf = h := by
  induction h with
  | nil => simp [subAt, leadMatch_iff, List.append_eq_nil]
  | cons a as ih =>
    simp only [subAt, Bool.or_eq_true, leadMatch_iff, ih]
    constructor
    · rintro (⟨suf, hsuf⟩ | ⟨pre, suf, hps⟩)
      · exact ⟨[], suf, by simpa using hsuf⟩
      · exact ⟨a :: pre, suf, by simp [hps]⟩
    · rintro ⟨pre, suf, hp⟩
      cases pre with
      | nil => exact Or.inl ⟨suf, by simpa using hp⟩
      | cons b bs =>
        simp only [List.cons_append, List.cons.injEq] at hp
        exact Or.inr ⟨bs, suf, by simp [hp.1, hp.2]⟩

theorem strIncludes_iff (hay needle : String) :
    strIncludes hay needle = true ↔ Substr needle hay :=
  subAt_iff needle.data hay.data

/-! ### Characterisation of the validator -/

theorem titleCheck_create_ok_iff (title : Option String) :
    titleCheck title false = Except.ok () ↔
      ∃ t, title = some t ∧ 1 ≤ (jsTrim t).length ∧ (jsTrim t).length ≤ 200 := by
  cases title with
  | none => simp [titleCheck, jsFalsyStr]
  | some t =>
    by_cases h0 : t = ""
    · subst h0
      have hz : (jsTrim "").length = 0 := rfl
      simp [titleCheck, jsFalsyStr, hz]
    · have hne : (t == "") = false := by simpa using h0
      simp only [titleCheck, jsFalsyStr, hne, Bool.not_false, Bool.true_and,
        Bool.false_eq_true, if_false, Option.some.injEq]
      split_ifs with h1 h2
      · exact iff_of_false (by simp) (by rintro ⟨t2, rfl, hb1, hb2⟩; omega)
      · exact iff_of_false (by simp) (by rintro ⟨t2, rfl, hb1, hb2⟩; omega)
      · exact iff_of_true rfl ⟨t, rfl, by omega, by omega⟩

theorem titleCheck_update_ok (title : Option String) (h : titleCheck title true = Except.ok ())
    (t : String) (ht : title = some t) :
    1 ≤ (jsTrim t).length ∧ (jsTrim t).length ≤ 200 := by
  subst ht
  simp only [titleCheck, Bool.not_true, Bool.false_and, Bool.false_eq_true, if_false] at h
  split_ifs at h with h1 h2
  all_goals first
    | omega
    | simp_all

theorem descCheck_ok_iff (d : Option String) :
    descCheck d = Except.ok () ↔ ∀ s, d = some s → s.length ≤ 1000 := by
  cases d with
  | none => simp [descCheck]
  | some s =>
    simp only [descCheck, Option.some.injEq]
    split_ifs with h1
    · exact iff_of_false (by simp) (fun hc => by have := hc s rfl; omega)
    · exact iff_of_true rfl (by rintro s2 rfl; omega)

theorem catCheck_ok_iff (c : Option String) :
    catCheck c = Except.ok () ↔ ∀ s, c = some s → s ∈ validCategories := by
  cases c with
  | none => simp [catCheck]
  | some s =>
    simp only [catCheck, Option.some.injEq]
    split_ifs with h1
    · exact iff_of_true rfl (by rintro s2 rfl; exact h1)
    · exact iff_of_false (by simp) (fun hc => h1 (hc s rfl))

theorem prioCheck_ok_iff (p : Option String) :
    prioCheck p = Except.ok () ↔ ∀ s, p = some s → s ∈ validPriorities := by
  cases p with
  | none => simp [prioCheck]
  | some s =>
    simp only [prioCheck, Option.some.injEq]
    split_ifs with h1
    · exact iff_of_true rfl (by rintro s2 rfl; exact h1)
    · exact iff_of_false (by simp) (fun hc => h1 (hc s rfl))

theorem validate_ok_iff (data : TaskInput) (isUpdate : Bool) :
    validateTaskInput data isUpdate = Except.ok () ↔
      titleCheck data.title isUpdate = Except.ok () ∧
      descCheck data.description = Except.ok () ∧
      catCheck data.category = Except.ok () ∧
      prioCheck data.priority = Except.ok () := by
  unfold validateTaskInput
  cases h1 : titleCheck data.title isUpdate with
  | error e => simp [h1]
  | ok u =>
    cases u
    cases h2 : descCheck data.description with
    | error e => simp [h2]
    | ok u2 =>
      cases u2
      cases h3 : catCheck data.category with
      | error e => simp [h3]
      | ok u3 => cases u3; simp

theorem titleCheck_error_code (title : Option String) (isUpdate : Bool) (e : ApiError)
    (h : titleCheck title isUpdate = Except.error e) : e.code = "VALIDATION_ERROR" := by
  cases title <;>
    simp only [titleCheck] at h <;>
    split_ifs at h <;>
    first
      | (injection h with h2; subst h2; rfl)
      | simp at h

theorem descCheck_error_code (d : Option String) (e : ApiError)
    (h : descCheck d = Except.error e) : e.code = "VALIDATION_ERROR" := by
  cases d <;>
    simp only [descCheck] at h <;>
    try split_ifs at h
  all_goals
    first
      | (injection h with h2; subst h2; rfl)
      | simp at h

theorem catCheck_error_code (c : Option String) (e : ApiError)
    (h : catCheck c = Except.error e) : e.code = "VALIDATION_ERROR" := by
  cases c <;>
    simp only [catCheck] at h <;>
    try split_ifs at h
  all_goals
    first
      | (injection h with h2; subst h2; rfl)
      | simp at h

theorem prioCheck_error_code (p : Option String) (e : ApiError)
    (h : prioCheck p = Except.error e) : e.code = "VALIDATION_ERROR" := by
  cases p <;>
    simp only [prioCheck] at h <;>
    try split_ifs at h
  all_goals
    first
      | (injection h with h2; subst h2; rfl)
      | simp at h

theorem validate_error_code (data : TaskInput) (isUpdate : Bool) (e : ApiError)
    (h : validateTaskInput data isUpdate = Except.error e) : e.code = "VALIDATION_ERROR" := by
  unfold validateTaskInput at h
  cases h1 : titleCheck data.title isUpdate with
  | error e1 =>
    rw [h1] at h
    injection h with h2
    subst h2
    exact titleCheck_error_code _ _ _ h1
  | ok u =>
    rw [h1] at h
    cases h2 : descCheck data.description with
    | error e2 =>
      rw [h2] at h
      injection h with h3
      subst h3
      exact descCheck_error_code _ _ h2
    | ok u2 =>
      rw [h2] at h
      cases h3 : catCheck data.category with
      | error e3 =>
        rw [h3] at h
        injection h with h4
        subst h4
        exact catCheck_error_code _ _ h3
      | ok u3 =>
        rw [h3] at h
        exact prioCheck_error_code _ _ h

theorem forallSome_iff (o : Option String) (P : String → Prop) :
    (∀ s, o = some s → P s) ↔ ¬ ∃ s, o = some s ∧ ¬ P s := by
  cases o <;> simp [not_not]

theorem titleOk_iff (o : Option String) :
    (∃ t, o = some t ∧ 1 ≤ (jsTrim t).length ∧ (jsTrim t).length ≤ 200) ↔
      ¬(o = none ∨ (∃ t, o = some t ∧ (jsTrim t).length = 0) ∨
        (∃ t, o = some t ∧ 200 < (jsTrim t).length)) := by
  cases o with
  | none => simp
  | some t =>
    simp only [Option.some.injEq, exists_eq_left', reduceCtorEq, false_or, not_or, not_exists]
    omega

theorem createTask_error_iff (store : List Task) (body : TaskInput) (newId : String) (now : Nat) :
    (∃ e, createTask store body newId now = Except.error e ∧ e.code = "VALIDATION_ERROR") ↔
      ¬ (validateTaskInput body false = Except.ok ()) := by
  unfold createTask
  cases h : validateTaskInput body false with
  | error e =>
    simp only [h]
    exact iff_of_true ⟨e, rfl, validate_error_code _ _ _ h⟩ (by simp)
  | ok u =>
    cases u
    simp [h]

/-- C2: `create` fails with a ValidationError exactly when the title is
absent, the trimmed title is empty or longer than 200 characters, a
supplied description is longer than 1000 characters (measured untrimmed),
or a supplied category/priority is outside its enumeration; boundary
values 200 and 1000 are accepted. -/
theorem createTask_validationError_iff (store : List Task) (body : TaskInput)
    (newId : String) (now : Nat) :
    (∃ e, createTask store body newId now = Except.error e ∧ e.code = "VALIDATION_ERROR") ↔
      (body.title = none ∨
       (∃ t, body.title = some t ∧ (jsTrim t).length = 0) ∨
       (∃ t, body.title = some t ∧ 200 < (jsTrim t).length) ∨
       (∃ d, body.description = some d ∧ 1000 < d.length) ∨
       (∃ c, body.category = some c ∧ c ∉ validCategories) ∨
       (∃ p, body.priority = some p ∧ p ∉ validPriorities)) := by
  rw [createTask_error_iff, validate_ok_iff, titleCheck_create_ok_iff, descCheck_ok_iff,
    catCheck_ok_iff, prioCheck_ok_iff, titleOk_iff,
    forallSome_iff body.description (fun s => s.length ≤ 1000),
    forallSome_iff body.category (fun s => s ∈ validCategories),
    forallSome_iff body.priority (fun s => s ∈ validPriorities)]
  simp only [Nat.not_le]
  rw [not_and_or, not_and_or, not_and_or, not_not, not_not, not_not, not_not]
  simp only [or_assoc]

theorem mem_validCategories_ne_empty (c : String) (h : c ∈ validCategories) :
    (c == "") = false := by
  simp only [validCategories, List.mem_cons, List.mem_singleton, List.not_mem_nil, or_false] at h
  rcases h with rfl | rfl | rfl <;> decide

theorem mem_validPriorities_ne_empty (p : String) (h : p ∈ validPriorities) :
    (p == "") = false := by
  simp only [validPriorities, List.mem_cons, List.mem_singleton, List.not_mem_nil, or_false] at h
  rcases h with rfl | rfl | rfl <;> decide

/-- C1: on every valid input, `create` stores and returns a task with a
fresh id, `completed = false`, the trimmed title, the trimmed description
when one was supplied and none otherwise, the supplied category/priority
or the defaults `"personal"`/`"medium"`, equal creation and update
instants, and appends it at the end of the collection. -/
theorem createTask_spec (store : List Task) (body : TaskInput) (newId : String) (now : Nat)
    (task : Task) (store2 : List Task)
    (hfresh : ∀ t ∈ store, t.id ≠ newId)
    (hok : createTask store body newId now = Except.ok (task, store2)) :
    task.id = newId ∧
    (∀ t ∈ store, t.id ≠ task.id) ∧
    task.completed = false ∧
    (∀ rawTitle, body.title = some rawTitle → task.title = jsTrim rawTitle) ∧
    task.description = body.description.map jsTrim ∧
    (body.category = none → task.category = "personal") ∧
    (∀ c, body.category = some c → task.category = c) ∧
    (body.priority = none → task.priority = "medium") ∧
    (∀ p, body.priority = some p → task.priority = p) ∧
    task.createdAt = task.updatedAt ∧
    store2 = store ++ [task] := by
  unfold createTask at hok
  cases hval : validateTaskInput body false with
  | error e => rw [hval] at hok; simp at hok
  | ok u =>
    cases u
    rw [hval] at hok
    simp only [Except.ok.injEq, Prod.mk.injEq] at hok
    obtain ⟨htask, hstore⟩ := hok
    subst htask
    subst hstore
    refine ⟨rfl, ?_, rfl, ?_, rfl, ?_, ?_, ?_, ?_, rfl, rfl⟩
    · exact hfresh
    · intro raw hr
      simp [hr]
    · intro h
      simp [h, jsOr]
    · intro c hc
      have hcat := (catCheck_ok_iff body.category).mp
        ((validate_ok_iff body false).mp hval).2.2.1 c hc
      have hne := mem_validCategories_ne_empty c hcat
      simp [hc, jsOr, hne]
    · intro h
      simp [h, jsOr]
    · intro p hp
      have hprio := (prioCheck_ok_iff body.priority).mp
        ((validate_ok_iff body false).mp hval).2.2.2 p hp
      have hne := mem_validPriorities_ne_empty p hprio
      simp [hp, jsOr, hne]

/-- Witness for C1: `createTask` on the concrete `sampleBody`. -/
theorem createTask_spec_witness :
    sampleTask.id = "id1" ∧
    (∀ t ∈ ([] : List Task), t.id ≠ sampleTask.id) ∧
    sampleTask.completed = false ∧
    (∀ rawTitle, sampleBody.title = some rawTitle → sampleTask.title = jsTrim rawTitle) ∧
    sampleTask.description = sampleBody.description.map jsTrim ∧
    (sampleBody.category = none → sampleTask.category = "personal") ∧
    (∀ c, sampleBody.category = some c → sampleTask.category = c) ∧
    (sampleBody.priority = none → sampleTask.priority = "medium") ∧
    (∀ p, sampleBody.priority = some p → sampleTask.priority = p) ∧
    sampleTask.createdAt = sampleTask.updatedAt ∧
    [sampleTask] = [] ++ [sampleTask] :=
  createTask_spec [] sampleBody "id1" 5 sampleTask [sampleTask] (by simp) (by rfl)

/-- C10: `create` stores `completed = false` for every input, even one
supplying a `completed` value; completion is only reachable through
`update`. -/
theorem createTask_ignores_completed (store : List Task) (body : TaskInput)
    (newId : String) (now : Nat) (task : Task) (store2 : List Task)
    (hok : createTask store body newId now = Except.ok (task, store2)) :
    task.completed = false := by
  unfold createTask at hok
  cases hval : validateTaskInput body false with
  | error e => rw [hval] at hok; simp at hok
  | ok u =>
    cases u
    rw [hval] at hok
    simp only [Except.ok.injEq, Prod.mk.injEq] at hok
    obtain ⟨htask, _⟩ := hok
    subst htask
    rfl

/-- Witness for C10: `sampleBody` carries `completed = some true`, the
stored task still has `completed = false`. -/
theorem createTask_ignores_completed_witness :
    sampleBody.completed = some true ∧ sampleTask.completed = false :=
  ⟨rfl, createTask_ignores_completed [] sampleBody "id1" 5 sampleTask [sampleTask] (by rfl)⟩

/-- C9: when the id matches no task, `update` fails with NotFound even on
a body that would also fail validation: the existence check of the PUT
handler runs before `validateTaskInput`. -/
theorem updateTask_notFound_precedence (store : List Task) (id : String)
    (body : TaskInput) (now : Nat)
    (habs : ∀ t ∈ store, t.id ≠ id) :
    ∃ e, updateTask store id body now = Except.error e ∧ e.code = "TASK_NOT_FOUND" := by
  have hfind : store.find? (fun t => t.id == id) = none := by
    rw [List.find?_eq_none]
    intro t ht
    simpa using habs t ht
  unfold updateTask findTaskById
  rw [hfind]
  exact ⟨_, rfl, rfl⟩

/-- Witness for C9: an absent id together with `badBody`, a body that
fails validation, still yields NotFound. -/
theorem updateTask_notFound_precedence_witness :
    ∃ e, updateTask [] "missing" badBody 7 = Except.error e ∧ e.code = "TASK_NOT_FOUND" :=
  updateTask_notFound_precedence [] "missing" badBody 7 (by simp)

/-- C7: a failed call (any thrown `ApiError`: ValidationError on
create/update, NotFound on update/delete) leaves the collection exactly
as it was: the handlers throw before any mutation. -/
theorem failedOp_leaves_store (store : List Task) (op : Op)
    (h : match op with
      | .create body newId now => ∃ e, createTask store body newId now = Except.error e
      | .update id body now => ∃ e, updateTask store id body now = Except.error e
      | .del id => ∃ e, deleteTask store id = Except.error e) :
    applyOp store op = store := by
  cases op with
  | create body newId now =>
    obtain ⟨e, he⟩ := h
    simp [applyOp, he]
  | update id body now =>
    obtain ⟨e, he⟩ := h
    simp [applyOp, he]
  | del id =>
    obtain ⟨e, he⟩ := h
    simp [applyOp, he]

/-- Witness for C7: the failing create of `emptyBody` leaves the empty
store untouched. -/
theorem failedOp_leaves_store_witness :
    applyOp [] (Op.create emptyBody "id1" 0) = [] :=
  failedOp_leaves_store [] (Op.create emptyBody "id1" 0)
    ⟨⟨400, "VALIDATION_ERROR", "Title is required"⟩, rfl⟩

theorem listTasks_eq_filter (store : List Task) (f : Filters) :
    listTasks store f = store.filter (matchesFilters f) := by
  obtain ⟨fc, fcat, fp, fs⟩ := f
  cases fc <;> cases fcat <;> cases fp <;> cases fs <;>
    simp only [listTasks, List.filter_filter] <;>
    first
      | (symm
         rw [List.filter_eq_self]
         intro a ha
         simp [matchesFilters])
      | (apply List.filter_congr
         intro t ht
         simp [matchesFilters, Bool.and_comm, Bool.and_left_comm, Bool.and_assoc])

theorem searchMatches_iff (s : String) (t : Task) :
    searchMatches s t = true ↔
      (Substr s.toLower t.title.toLower ∨
       ∃ d, t.description = some d ∧ Substr s.toLower d.toLower) := by
  cases hd : t.description with
  | none => simp [searchMatches, hd, strIncludes_iff]
  | some d => simp [searchMatches, hd, strIncludes_iff]

/-- C3: `list` returns exactly the tasks satisfying the conjunction of
the present filters, in insertion order, and the search filter matches a
task exactly when the lowercased term is a substring of the lowercased
title or of the lowercased description; a task with no description can
only match through its title. -/
theorem listTasks_spec (store : List Task) (f : Filters) :
    listTasks store f = store.filter (matchesFilters f) ∧
    (∀ s t, f.search = some s →
      (searchMatches s t = true ↔
        (Substr s.toLower t.title.toLower ∨
         ∃ d, t.description = some d ∧ Substr s.toLower d.toLower))) ∧
    (∀ s t, f.search = some s → t.description = none →
      (searchMatches s t = true ↔ Substr s.toLower t.title.toLower)) := by
  refine ⟨listTasks_eq_filter store f, ?_, ?_⟩
  · intro s t _
    exact searchMatches_iff s t
  · intro s t _ hd
    rw [searchMatches_iff]
    simp [hd]

/-- Witness for C3: the filter equation and the search characterisation
at a concrete store and filter configuration. -/
theorem listTasks_spec_witness :
    listTasks [sampleTask] sampleFilters =
      List.filter (matchesFilters sampleFilters) [sampleTask] ∧
    (searchMatches "a" sampleTask = true ↔
      (Substr (String.toLower "a") sampleTask.title.toLower ∨
       ∃ d, sampleTask.description = some d ∧ Substr (String.toLower "a") d.toLower)) :=
  ⟨(listTasks_spec [sampleTask] sampleFilters).1,
   (listTasks_spec [sampleTask] sampleFilters).2.1 "a" sampleTask rfl⟩

theorem applyUpdate_fields (body : TaskInput) (now : Nat) (t : Task) :
    (applyUpdate body now t).id = t.id ∧
    (applyUpdate body now t).createdAt = t.createdAt ∧
    (applyUpdate body now t).updatedAt = now ∧
    (applyUpdate body now t).title =
      (match body.title with | some s => jsTrim s | none => t.title) ∧
    (applyUpdate body now t).description =
      (match body.description with | some s => some (jsTrim s) | none => t.description) ∧
    (applyUpdate body now t).completed =
      (match body.completed with | some b => b | none => t.completed) ∧
    (applyUpdate body now t).category =
      (match body.category with | some c => c | none => t.category) ∧
    (applyUpdate body now t).priority =
      (match body.priority with | some p => p | none => t.priority) := by
  unfold applyUpdate setTitle setDescription setCompleted setCategory setPriority
  cases body.title <;> cases body.description <;> cases body.completed <;>
    cases body.category <;> cases body.priority <;> simp

/-- C4: a successful `update` applies exactly the supplied fields (title
and description trimmed), keeps every absent field and `createdAt` at
their prior values, replaces the task in place, and refreshes `updatedAt`
to the call instant unconditionally. -/
theorem updateTask_spec (store : List Task) (id : String) (body : TaskInput) (now : Nat)
    (updated : Task) (store2 : List Task) (told : Task)
    (hfind : findTaskById store id = Except.ok told)
    (hok : updateTask store id body now = Except.ok (updated, store2)) :
    updated.id = told.id ∧
    updated.createdAt = told.createdAt ∧
    updated.updatedAt = now ∧
    (body.title = none → updated.title = told.title) ∧
    (∀ s, body.title = some s → updated.title = jsTrim s) ∧
    (body.description = none → updated.description = told.description) ∧
    (∀ s, body.description = some s → updated.description = some (jsTrim s)) ∧
    (body.completed = none → updated.completed = told.completed) ∧
    (∀ b, body.completed = some b → updated.completed = b) ∧
    (body.category = none → updated.category = told.category) ∧
    (∀ c, body.category = some c → updated.category = c) ∧
    (body.priority = none → updated.priority = told.priority) ∧
    (∀ p, body.priority = some p → updated.priority = p) ∧
    store2 = replaceFirst store id updated := by
  unfold updateTask at hok
  rw [hfind] at hok
  cases hval : validateTaskInput body true with
  | error e => rw [hval] at hok; simp at hok
  | ok u =>
    cases u
    rw [hval] at hok
    simp only [Except.ok.injEq, Prod.mk.injEq] at hok
    obtain ⟨hupd, hstore⟩ := hok
    subst hupd
    subst hstore
    obtain ⟨f1, f2, f3, f4, f5, f6, f7, f8⟩ := applyUpdate_fields body now told
    refine ⟨f1, f2, f3, ?_, ?_, ?_, ?_, ?_, ?_, ?_, ?_, ?_, ?_, rfl⟩
    · intro h; rw [f4, h]
    · intro s h; rw [f4, h]
    · intro h; rw [f5, h]
    · intro s h; rw [f5, h]
    · intro h; rw [f6, h]
    · intro b h; rw [f6, h]
    · intro h; rw [f7, h]
    · intro c h; rw [f7, h]
    · intro h; rw [f8, h]
    · intro p h; rw [f8, h]

/-- Witness for C4: updating only `completed` on `sampleTask` keeps
title, category, priority and `createdAt`, and refreshes `updatedAt`. -/
theorem updateTask_spec_witness :
    wUpdated.updatedAt = 9 ∧ wUpdated.title = sampleTask.title ∧
    wUpdated.category = sampleTask.category ∧ wUpdated.priority = sampleTask.priority ∧
    wUpdated.completed = true ∧ wUpdated.createdAt = sampleTask.createdAt := by
  obtain ⟨h1, h2, h3, h4, h5, h6, h7, h8, h9, h10, h11, h12, h13, h14⟩ :=
    updateTask_spec [sampleTask] "id1" wBody 9 wUpdated [wUpdated] sampleTask rfl rfl
  exact ⟨h3, h4 rfl, h10 rfl, h12 rfl, h9 true rfl, h2⟩

theorem foldl_bumpStats (tasks : List Task) (s : TaskStats) :
    tasks.foldl bumpStats s =
      ⟨s.total,
       s.completed + tasks.countP (fun t => t.completed),
       s.active,
       s.byCategoryWork + tasks.countP (fun t => t.category == "work"),
       s.byCategoryPersonal + tasks.countP (fun t => t.category == "personal"),
       s.byCategoryOther + tasks.countP (fun t => t.category == "other"),
       s.byPriorityLow + tasks.countP (fun t => t.priority == "low"),
       s.byPriorityMedium + tasks.countP (fun t => t.priority == "medium"),
       s.byPriorityHigh + tasks.countP (fun t => t.priority == "high")⟩ := by
  induction tasks generalizing s with
  | nil => simp
  | cons t ts ih =>
    rw [List.foldl_cons, ih]
    simp only [bumpStats, List.countP_cons]
    congr 1 <;> omega

/-- C5: `stats` always equals the reference aggregate over the current
collection — `total` the size, `completed` the count of completed tasks,
`active = total - completed`, and per-value counts for the three
categories and the three priorities — and is all-zero with every key
present on the empty collection. -/
theorem calculateStats_spec :
    (∀ tasks : List Task, calculateStats tasks = statsSpec tasks) ∧
    calculateStats [] = ⟨0, 0, 0, 0, 0, 0, 0, 0, 0⟩ := by
  have hmain : ∀ tasks : List Task, calculateStats tasks = statsSpec tasks := by
    intro tasks
    simp only [calculateStats, statsSpec, foldl_bumpStats]
    simp
  exact ⟨hmain, by rw [hmain]; rfl⟩

theorem findIndexById_none_iff (store : List Task) (id : String) :
    findIndexById store id = none ↔ ∀ t ∈ store, t.id ≠ id := by
  induction store with
  | nil => simp [findIndexById]
  | cons t ts ih =>
    cases h : (t.id == id) with
    | true =>
      have hid : t.id = id := by simpa using h
      simp [findIndexById, h, hid]
    | false =>
      have hne : t.id ≠ id := by simpa using h
      simp [findIndexById, h, ih, hne]

theorem eraseIdx_of_findIndexById (store : List Task) (id : String) (i : Nat)
    (hn : (store.map Task.id).Nodup) (hf : findIndexById store id = some i) :
    store.eraseIdx i = store.filter (fun t => !(t.id == id)) := by
  induction store generalizing i with
  | nil => simp [findIndexById] at hf
  | cons t ts ih =>
    simp only [List.map_cons, List.nodup_cons] at hn
    obtain ⟨hnotin, hn2⟩ := hn
    cases h : (t.id == id) with
    | true =>
      have hid : t.id = id := by simpa using h
      simp only [findIndexById, h, if_true] at hf
      have hi : i = 0 := by
        cases hf
        rfl
      subst hi
      have hts : ts.filter (fun t2 => !(t2.id == id)) = ts := by
        rw [List.filter_eq_self]
        intro a ha
        have hane : a.id ≠ t.id := fun he => hnotin (he ▸ List.mem_map_of_mem Task.id ha)
        rw [hid] at hane
        simpa using hane
      simp [List.eraseIdx, h, hts]
    | false =>
      simp only [findIndexById, h, Bool.false_eq_true, if_false, Option.map_eq_some'] at hf
      obtain ⟨j, hj, hi⟩ := hf
      subst hi
      show (t :: ts).eraseIdx (j + 1) = (t :: ts).filter (fun t2 => !(t2.id == id))
      rw [List.eraseIdx_cons_succ, ih j hn2 hj]
      simp [h]

/-- C8: `delete` fails with NotFound exactly when no task carries the id;
after a successful delete, `getById` of that id fails with NotFound, no
task with the id remains, and the other tasks are kept unchanged in their
original relative order. -/
theorem deleteTask_spec (store : List Task) (id : String)
    (hn : (store.map Task.id).Nodup) :
    ((∃ e, deleteTask store id = Except.error e ∧ e.code = "TASK_NOT_FOUND") ↔
      ∀ t ∈ store, t.id ≠ id) ∧
    (∀ store2, deleteTask store id = Except.ok store2 →
      (∃ e, findTaskById store2 id = Except.error e ∧ e.code = "TASK_NOT_FOUND") ∧
      (∀ t ∈ store2, t.id ≠ id) ∧
      store2 = store.filter (fun t => !(t.id == id))) := by
  constructor
  · cases hf : findIndexById store id with
    | none =>
      rw [← findIndexById_none_iff store id]
      simp [deleteTask, hf]
    | some i =>
      have hnall : ¬ (∀ t ∈ store, t.id ≠ id) := by
        rw [← findIndexById_none_iff store id]
        simp [hf]
      simp [deleteTask, hf, hnall]
  · intro store2 hok
    cases hf : findIndexById store id with
    | none => simp [deleteTask, hf] at hok
    | some i =>
      simp only [deleteTask, hf, Except.ok.injEq] at hok
      subst hok
      have hfe := eraseIdx_of_findIndexById store id i hn hf
      refine ⟨?_, ?_, hfe⟩
      · have hnone : (store.eraseIdx i).find? (fun t => t.id == id) = none := by
          rw [hfe, List.find?_eq_none]
          intro a ha
          have h2 := (List.mem_filter.mp ha).2
          simpa using h2
        refine ⟨⟨404, "TASK_NOT_FOUND", "Task with id " ++ id ++ " not found"⟩, ?_, rfl⟩
        simp [findTaskById, hnone]
      · intro t ht
        rw [hfe] at ht
        have h2 := (List.mem_filter.mp ht).2
        simpa using h2

/-- Witness for C8: deleting `"id1"` from a two-task store removes
exactly that task and makes `getById "id1"` fail. -/
theorem deleteTask_spec_witness :
    (∃ e, findTaskById [tOther] "id1" = Except.error e ∧ e.code = "TASK_NOT_FOUND") ∧
    (∀ t ∈ [tOther], t.id ≠ "id1") ∧
    [tOther] = List.filter (fun t => !(t.id == "id1")) [sampleTask, tOther] :=
  (deleteTask_spec [sampleTask, tOther] "id1" (by decide)).2 [tOther] rfl

theorem map_id_replaceFirst (store : List Task) (id : String) (u : Task) (hu : u.id = id) :
    (replaceFirst store id u).map Task.id = store.map Task.id := by
  induction store with
  | nil => rfl
  | cons t ts ih =>
    cases h : (t.id == id) with
    | true =>
      have hid : t.id = id := by simpa using h
      simp [replaceFirst, h, hu, hid]
    | false => simp [replaceFirst, h, ih]

theorem mem_replaceFirst (store : List Task) (id : String) (u : Task) (t : Task)
    (ht : t ∈ replaceFirst store id u) : t = u ∨ t ∈ store := by
  induction store with
  | nil => simp [replaceFirst] at ht
  | cons t2 ts ih =>
    cases h : (t2.id == id) with
    | true =>
      rw [replaceFirst] at ht
      rw [h] at ht
      simp only [if_true] at ht
      rcases List.mem_cons.mp ht with rfl | hmem
      · exact Or.inl rfl
      · exact Or.inr (List.mem_cons_of_mem _ hmem)
    | false =>
      rw [replaceFirst] at ht
      rw [h] at ht
      simp only [Bool.false_eq_true, if_false] at ht
      rcases List.mem_cons.mp ht with rfl | hmem
      · exact Or.inr (List.mem_cons_self _ _)
      · rcases ih hmem with h1 | h2
        · exact Or.inl h1
        · exact Or.inr (List.mem_cons_of_mem _ h2)

theorem jsOr_mem_validCategories (o : Option String)
    (h : ∀ s, o = some s → s ∈ validCategories) :
    jsOr o "personal" ∈ validCategories := by
  cases ho : o with
  | none => simp [jsOr, validCategories]
  | some c =>
    have hc := h c ho
    have hne := mem_validCategories_ne_empty c hc
    simpa [jsOr, hne] using hc

theorem jsOr_mem_validPriorities (o : Option String)
    (h : ∀ s, o = some s → s ∈ validPriorities) :
    jsOr o "medium" ∈ validPriorities := by
  cases ho : o with
  | none => simp [jsOr, validPriorities]
  | some p =>
    have hp := h p ho
    have hne := mem_validPriorities_ne_empty p hp
    simpa [jsOr, hne] using hp

theorem createTask_wf (store : List Task) (body : TaskInput) (newId : String) (now : Nat)
    (task : Task) (store2 : List Task)
    (hok : createTask store body newId now = Except.ok (task, store2)) :
    TaskWF task := by
  unfold createTask at hok
  cases hval : validateTaskInput body false with
  | error e => rw [hval] at hok; simp at hok
  | ok u =>
    cases u
    rw [hval] at hok
    simp only [Except.ok.injEq, Prod.mk.injEq] at hok
    obtain ⟨htask, _⟩ := hok
    subst htask
    obtain ⟨ht, hd, hc, hp⟩ := (validate_ok_iff body false).mp hval
    obtain ⟨rawT, hrawT, h1, h2⟩ := (titleCheck_create_ok_iff body.title).mp ht
    have hdesc := (descCheck_ok_iff body.description).mp hd
    have hcat := (catCheck_ok_iff body.category).mp hc
    have hprio := (prioCheck_ok_iff body.priority).mp hp
    refine ⟨?_, ?_, ?_, ?_, ?_, le_refl now⟩
    · show 1 ≤ (jsTrim (jsTrim (body.title.getD ""))).length
      rw [hrawT, Option.getD_some, jsTrim_idem]
      exact h1
    · show (jsTrim (jsTrim (body.title.getD ""))).length ≤ 200
      rw [hrawT, Option.getD_some, jsTrim_idem]
      exact h2
    · show descLenOk (body.description.map jsTrim)
      cases hD : body.description with
      | none => simp [descLenOk]
      | some d =>
        have := hdesc d hD
        simp only [Option.map_some', descLenOk]
        exact le_trans (jsTrim_length_le d) this
    · exact jsOr_mem_validCategories body.category hcat
    · exact jsOr_mem_validPriorities body.priority hprio

theorem findTaskById_ok (store : List Task) (id : String) (t : Task)
    (h : findTaskById store id = Except.ok t) : t ∈ store ∧ t.id = id := by
  unfold findTaskById at h
  cases hfs : store.find? (fun t2 => t2.id == id) with
  | none => rw [hfs] at h; simp at h
  | some t2 =>
    rw [hfs] at h
    injection h with h2
    subst h2
    exact ⟨List.mem_of_find?_eq_some hfs, by simpa using List.find?_some hfs⟩

theorem updateTask_wf (store : List Task) (id : String) (body : TaskInput) (now : Nat)
    (updated : Task) (store2 : List Task)
    (hwfall : ∀ t ∈ store, TaskWF t)
    (htime : ∀ t ∈ store, t.createdAt ≤ now)
    (hok : updateTask store id body now = Except.ok (updated, store2)) :
    TaskWF updated ∧ updated.id = id ∧ store2 = replaceFirst store id updated := by
  unfold updateTask at hok
  cases hfind : findTaskById store id with
  | error e => rw [hfind] at hok; simp at hok
  | ok told =>
    rw [hfind] at hok
    cases hval : validateTaskInput body true with
    | error e => rw [hval] at hok; simp at hok
    | ok u =>
      cases u
      rw [hval] at hok
      simp only [Except.ok.injEq, Prod.mk.injEq] at hok
      obtain ⟨hupd, hstore⟩ := hok
      subst hupd
      subst hstore
      obtain ⟨hmem, hidt⟩ := findTaskById_ok store id told hfind
      obtain ⟨w1, w2, w3, w4, w5, w6⟩ := hwfall told hmem
      obtain ⟨ht, hd, hc, hp⟩ := (validate_ok_iff body true).mp hval
      have hdesc := (descCheck_ok_iff body.description).mp hd
      have hcat := (catCheck_ok_iff body.category).mp hc
      have hprio := (prioCheck_ok_iff body.priority).mp hp
      obtain ⟨f1, f2, f3, f4, f5, f6, f7, f8⟩ := applyUpdate_fields body now told
      refine ⟨⟨?_, ?_, ?_, ?_, ?_, ?_⟩, by rw [f1, hidt], rfl⟩
      · rw [f4]
        cases hT : body.title with
        | none => exact w1
        | some s =>
          have := (titleCheck_update_ok body.title ht s hT).1
          simpa [jsTrim_idem] using this
      · rw [f4]
        cases hT : body.title with
        | none => exact w2
        | some s =>
          have := (titleCheck_update_ok body.title ht s hT).2
          simpa [jsTrim_idem] using this
      · rw [f5]
        cases hD : body.description with
        | none => exact w3
        | some d =>
          have := hdesc d hD
          simp only [descLenOk]
          exact le_trans (jsTrim_length_le d) this
      · rw [f7]
        cases hC : body.category with
        | none => exact w4
        | some c => exact hcat c hC
      · rw [f8]
        cases hP : body.priority with
        | none => exact w5
        | some p => exact hprio p hP
      · rw [f2, f3]
        exact htime told hmem

theorem applyOp_preserves (store : List Task) (op : Op)
    (hwf : StoreWF store) (hok : OpOk store op) : StoreWF (applyOp store op) := by
  obtain ⟨hnodup, hall⟩ := hwf
  cases op with
  | create body newId now =>
    cases hc : createTask store body newId now with
    | error e =>
      simp only [applyOp, hc]
      exact ⟨hnodup, hall⟩
    | ok pair =>
      obtain ⟨task, store2⟩ := pair
      simp only [applyOp, hc]
      have hfresh : ∀ t ∈ store, t.id ≠ newId := hok
      obtain ⟨hid, _, _, _, _, _, _, _, _, _, happ⟩ :=
        createTask_spec store body newId now task store2 hfresh hc
      have hwf2 := createTask_wf store body newId now task store2 hc
      subst happ
      constructor
      · rw [List.map_append]
        rw [List.nodup_append]
        refine ⟨hnodup, List.nodup_singleton _, ?_⟩
        intro a ha hb
        obtain ⟨t, htmem, rfl⟩ := List.mem_map.mp ha
        simp only [List.map_cons, List.map_nil, List.mem_singleton] at hb
        exact hfresh t htmem (hb.trans hid)
      · intro t ht
        rcases List.mem_append.mp ht with h1 | h2
        · exact hall t h1
        · rw [List.mem_singleton.mp h2]
          exact hwf2
  | update id body now =>
    cases hc : updateTask store id body now with
    | error e =>
      simp only [applyOp, hc]
      exact ⟨hnodup, hall⟩
    | ok pair =>
      obtain ⟨updated, store2⟩ := pair
      simp only [applyOp, hc]
      obtain ⟨hwfu, hidu, hst⟩ := updateTask_wf store id body now updated store2 hall hok hc
      subst hst
      constructor
      · rw [map_id_replaceFirst store id updated hidu]
        exact hnodup
      · intro t ht
        rcases mem_replaceFirst store id updated t ht with rfl | hmem
        · exact hwfu
        · exact hall t hmem
  | del id =>
    cases hc : deleteTask store id with
    | error e =>
      simp only [applyOp, hc]
      exact ⟨hnodup, hall⟩
    | ok store2 =>
      simp only [applyOp, hc]
      unfold deleteTask at hc
      cases hf : findIndexById store id with
      | none => rw [hf] at hc; simp at hc
      | some i =>
        rw [hf] at hc
        simp only [Except.ok.injEq] at hc
        subst hc
        have hsub := List.eraseIdx_sublist store i
        constructor
        · exact (hsub.map Task.id).nodup hnodup
        · intro t ht
          exact hall t (hsub.subset ht)

/-- C6: under the environment assumptions that `randomUUID` draws fresh
ids and the clock is monotone, every sequence of create/update/delete
calls preserves the data-model invariants: pairwise distinct ids, trimmed
title length 1..200, description length at most 1000, enumerated
category/priority, and `updatedAt >= createdAt` on every stored task. -/
theorem runOps_preserves_invariants (ops : List Op) (store : List Task)
    (hwf : StoreWF store) (hok : OpsOk store ops) :
    StoreWF (runOps store ops) := by
  induction ops generalizing store with
  | nil => exact hwf
  | cons op ops ih =>
    have h2 : OpOk store op ∧ OpsOk (applyOp store op) ops := hok
    exact ih (applyOp store op) (applyOp_preserves store op hwf h2.1) h2.2

/-- Witness for C6: a concrete create–update–delete run from the empty
store. -/
theorem runOps_preserves_invariants_witness :
    StoreWF (runOps [] [Op.create sampleBody "id1" 5, Op.update "id1" wBody 9, Op.del "id1"]) :=
  runOps_preserves_invariants [Op.create sampleBody "id1" 5, Op.update "id1" wBody 9, Op.del "id1"]
    [] (by decide) (by decide)

end TaskApi
